import Mathlib

/-!
# KaziConnect offline-first sync engine: a shallow embedding

This file embeds, in Lean, the data model and operations of the
KaziConnect offline job-board client and server that the specification's
claims are about:

* the IndexedDB-backed local store (`src/js/db.js`): the pending-write
  queues (`queueApplication`, `getPendingApplications`, `markAsSynced`)
  and the settings collection (`getSetting`, with the defaults seeded in
  `onupgradeneeded`);
* the sync engine (`src/js/main.js`): `trySyncApplications` and
  `trySyncJobSubmissions`, including the battery / data-saver gate, the
  FIFO drain loop that stops at the first failure, and the
  `setTimeout`-based exponential backoff (`2^retryCount * 1000` ms,
  scheduled only while `retryCount < 3`);
* the service worker's stale-while-revalidate handler for static assets
  (`sw.js` fetch listener);
* the Express server (`server/server.js`): `POST /api/jobs` (insert with
  status `'pending'`, defaulting `salary` and `description` to the empty
  string) and `GET /api/jobs` (`WHERE status = 'approved' ORDER BY id
  DESC`).

JavaScript numbers that only ever hold small integers are modelled as
`Nat`; the battery level (a float in `[0,1]` compared against `0.15`) is
modelled in hundredths, compared against `15`.  Promise-based IndexedDB
transactions are modelled as atomic state updates.  The per-request
network is an oracle `PendingRecord α → NetResult` fixed for one drain
pass.
-/

/-! ## Local store: pending-write queues (src/js/db.js) -/

/-- A record of a pending-write queue as stored by `queueApplication` /
`queueJobSubmission`: the IndexedDB autoincrement key `id`, the opaque
domain payload, the `Date.now()` timestamp and the `synced` flag. -/
structure PendingRecord (α : Type) where
  id : Nat
  payload : α
  timestamp : Nat
  synced : Bool
deriving DecidableEq, Repr

/-- A pending-write queue collection: the stored records in IndexedDB key
order (ascending `id`, the order `getAll` returns), plus the next
autoincrement key.  IndexedDB autoincrement keys start at 1. -/
structure QueueStore (α : Type) where
  records : List (PendingRecord α)
  nextId : Nat
deriving DecidableEq, Repr

/-- A freshly created queue collection: no records, autoincrement at 1. -/
def emptyStore {α : Type} : QueueStore α := QueueStore.mk [] 1

/-- `db.queueApplication(application)`: `store.add({...application,
timestamp: Date.now(), synced: false})` — inserts a new record under the
next autoincrement key with `synced = false` and the current timestamp. -/
def queueApplication {α : Type} (s : QueueStore α) (payload : α) (now : Nat) :
    QueueStore α :=
  QueueStore.mk (s.records ++ [PendingRecord.mk s.nextId payload now false]) (s.nextId + 1)

/-- `db.getPendingApplications()`: `getAll()` (key order) filtered by
`!app.synced`. -/
def getPendingApplications {α : Type} (s : QueueStore α) : List (PendingRecord α) :=
  s.records.filter (fun r => !r.synced)

/-- `db.markAsSynced(id)`: `store.delete(id)` — removes the record with
that key (IndexedDB `delete` succeeds silently when the key is absent). -/
def markAsSynced {α : Type} (s : QueueStore α) (id : Nat) : QueueStore α :=
  QueueStore.mk (s.records.filter (fun r => decide ¬ (r.id = id))) s.nextId

/-- Modelled from the spec: `db.getPendingJobSubmissions()` is called by
`main.js` but its definition is not in `src/js/db.js`.  Per the spec's
`getPending(queueCollection)` contract it filters `synced == false` from
the job-submission queue, in key order. -/
def getPendingJobSubmissions {α : Type} (s : QueueStore α) : List (PendingRecord α) :=
  s.records.filter (fun r => !r.synced)

/-- Modelled from the spec: `db.markJobSubmissionSynced(id)` is called by
`main.js` but its definition is not in `src/js/db.js`.  Per the spec
("the job-submission-queue flags and retains for display", settle mode
`flagSynced`) it sets `synced := true` on the record with that key and
retains the record. -/
def markJobSubmissionSynced {α : Type} (s : QueueStore α) (id : Nat) : QueueStore α :=
  QueueStore.mk
    (s.records.map (fun r =>
      if r.id = id then PendingRecord.mk r.id r.payload r.timestamp true else r))
    s.nextId

/-! ## Local store: settings (src/js/db.js) -/

/-- A scalar setting value (`'normal'`, `true`, `false`, ...). -/
inductive SettingValue where
  | str (s : String)
  | bool (b : Bool)
deriving DecidableEq, Repr

/-- A record of the `settings` object store (`keyPath: 'key'`). -/
structure SettingRecord where
  key : String
  value : SettingValue
deriving DecidableEq, Repr

/-- The default settings seeded in `onupgradeneeded` for schema version 2:
`syncFrequency = 'normal'`, `batteryAware = true`, `dataSaver = false`. -/
def defaultSettings : List SettingRecord :=
  [SettingRecord.mk "syncFrequency" (SettingValue.str "normal"),
   SettingRecord.mk "batteryAware" (SettingValue.bool true),
   SettingRecord.mk "dataSaver" (SettingValue.bool false)]

/-- The result of `db.getSetting`: JavaScript's `null` is a distinct
value, not an absent `Option`. -/
inductive GetSettingResult where
  | value (v : SettingValue)
  | null
deriving DecidableEq, Repr

/-- `db.getSetting(key)`: `store.get(key)` then
`resolve(request.result ? request.result.value : null)`. -/
def getSetting (settings : List SettingRecord) (key : String) : GetSettingResult :=
  match settings.find? (fun r => decide (r.key = key)) with
  | some r => GetSettingResult.value r.value
  | none => GetSettingResult.null

/-! ## Sync engine environment (src/js/main.js) -/

/-- The per-request outcome of `fetch`: an HTTP response with a status
code, or a transport error (rejected promise). -/
inductive NetResult where
  | ok (status : Nat)
  | transportError
deriving DecidableEq, Repr

/-- `response.ok`: status in the range 200–299. -/
def respOk (status : Nat) : Bool :=
  decide (200 ≤ status) && decide (status < 300)

/-- `netFails r` holds when the drain loop's `try` block throws for this
response: a non-2xx status (`!response.ok` → `throw`) or a transport
error. -/
def netFails : NetResult → Bool
  | NetResult.ok status => !respOk status
  | NetResult.transportError => true

/-- The platform signals `trySyncApplications` reads: `navigator.onLine`,
the battery level (in hundredths, `none` when `getBattery` is not in
`navigator`) and `navigator.connection.saveData` (`none` when
`navigator.connection` is absent). -/
structure SyncEnv where
  onLine : Bool
  batteryLevel : Option Nat
  saveData : Option Bool
deriving DecidableEq, Repr

/-- `'getBattery' in navigator ? (await navigator.getBattery()).level < 0.15
: false` — battery level below 0.15 (15 hundredths), `false` when the
platform cannot report it. -/
def isBatteryLow (env : SyncEnv) : Bool :=
  match env.batteryLevel with
  | some lvl => decide (lvl < 15)
  | none => false

/-- `navigator.connection ? navigator.connection.saveData : false`. -/
def isDataSaver (env : SyncEnv) : Bool :=
  match env.saveData with
  | some b => b
  | none => false

/-! ## Sync engine drain (src/js/main.js) -/

/-- A retry scheduled with `setTimeout(() => trySync...(retryCount + 1),
delay)`: the delay in milliseconds and the retry count the re-invocation
will run with. -/
structure RetryTimer where
  delayMs : Nat
  nextRetryCount : Nat
deriving DecidableEq, Repr

/-- The retry scheduling in the `catch` block: `if (retryCount < 3)`
schedule `trySync...(retryCount + 1)` after `Math.pow(2, retryCount) *
1000` ms; otherwise nothing. -/
def scheduleRetry (retryCount : Nat) : Option RetryTimer :=
  if retryCount < 3 then some (RetryTimer.mk (2 ^ retryCount * 1000) (retryCount + 1)) else none

/-- The observable outcome of one `trySync...` invocation. -/
inductive SyncOutcome where
  | offline
  | emptyQueue
  | deferred
  | completed
deriving DecidableEq, Repr

/-- The result of one `trySync...` pass: the store after the pass, the
records whose submission was attempted against the remote endpoint (in
order of `fetch` calls), the retry timer set by the `catch` block (if
any), and the outcome. -/
structure DrainResult (α : Type) where
  store : QueueStore α
  submitted : List (PendingRecord α)
  retryScheduled : Option RetryTimer
  outcome : SyncOutcome
deriving DecidableEq, Repr

/-- The `for (const app of pending)` loop body shared by both drains:
submit each item in order; on a 2xx response settle it and continue; on a
non-2xx response or transport error, schedule a retry (`retryCount < 3`)
and `break`.  Returns the store after the pass, the submitted records in
order, and the scheduled retry. -/
def drainLoop {α : Type} (settle : QueueStore α → Nat → QueueStore α)
    (net : PendingRecord α → NetResult) (retryCount : Nat) :
    List (PendingRecord α) → QueueStore α →
    QueueStore α × List (PendingRecord α) × Option RetryTimer
  | [], s => (s, [], none)
  | r :: rest, s =>
    if netFails (net r) then
      (s, [r], scheduleRetry retryCount)
    else
      let res := drainLoop settle net retryCount rest (settle s r.id)
      (res.1, r :: res.2.1, res.2.2)

/-- `trySyncApplications(retryCount)`: return if offline; read the pending
applications and return if none; defer when the live battery is low or
data saver is active; otherwise drain the queue FIFO, settling each
success by deletion (`markAsSynced`). -/
def trySyncApplications {α : Type} (env : SyncEnv) (net : PendingRecord α → NetResult)
    (s : QueueStore α) (retryCount : Nat) : DrainResult α :=
  if !env.onLine then DrainResult.mk s [] none SyncOutcome.offline
  else if (getPendingApplications s).isEmpty then DrainResult.mk s [] none SyncOutcome.emptyQueue
  else if isBatteryLow env || isDataSaver env then DrainResult.mk s [] none SyncOutcome.deferred
  else
    let res := drainLoop markAsSynced net retryCount (getPendingApplications s) s
    DrainResult.mk res.1 res.2.1 res.2.2 SyncOutcome.completed

/-- `trySyncJobSubmissions(retryCount)`: return if offline; read the
pending job submissions and return if none; otherwise drain the queue
FIFO, settling each success by flagging (`markJobSubmissionSynced`).
Note: unlike `trySyncApplications`, this function performs no battery /
data-saver check. -/
def trySyncJobSubmissions {α : Type} (env : SyncEnv) (net : PendingRecord α → NetResult)
    (s : QueueStore α) (retryCount : Nat) : DrainResult α :=
  if !env.onLine then DrainResult.mk s [] none SyncOutcome.offline
  else if (getPendingJobSubmissions s).isEmpty then DrainResult.mk s [] none SyncOutcome.emptyQueue
  else
    let res := drainLoop markJobSubmissionSynced net retryCount (getPendingJobSubmissions s) s
    DrainResult.mk res.1 res.2.1 res.2.2 SyncOutcome.completed

/-! ## Operation traces on the applications queue (src/js/db.js) -/

/-- One store operation on the applications queue: an enqueue
(`queueApplication`) or a delete-mode settle (`markAsSynced`). -/
inductive DbOp (α : Type) where
  | enqueue (payload : α) (now : Nat)
  | settleDelete (id : Nat)
deriving DecidableEq, Repr

/-- Apply one operation to the store. -/
def applyOp {α : Type} (s : QueueStore α) : DbOp α → QueueStore α
  | DbOp.enqueue p now => queueApplication s p now
  | DbOp.settleDelete id => markAsSynced s id

/-- Apply a sequence of operations to the store. -/
def applyOps {α : Type} (s : QueueStore α) (ops : List (DbOp α)) : QueueStore α :=
  ops.foldl applyOp s

/-- Whether an operation is an enqueue. -/
def isEnqueueOp {α : Type} : DbOp α → Bool
  | DbOp.enqueue _ _ => true
  | DbOp.settleDelete _ => false

/-- The number of enqueue calls in a trace. -/
def countEnqueues {α : Type} (ops : List (DbOp α)) : Nat :=
  ops.countP isEnqueueOp

/-- The number of settle calls in a trace. -/
def countSettles {α : Type} (ops : List (DbOp α)) : Nat :=
  ops.countP (fun op => !isEnqueueOp op)

/-- A trace is valid from a store when every settle targets an id that is
present at that point (a settled item exists). -/
def validOps {α : Type} : QueueStore α → List (DbOp α) → Bool
  | _, [] => true
  | s, op :: rest =>
    (match op with
     | DbOp.enqueue _ _ => true
     | DbOp.settleDelete id => s.records.any (fun r => decide (r.id = id))) &&
    validOps (applyOp s op) rest

/-- Store well-formedness maintained by the applications queue: every
record is unsynced (delete-mode settlement never flags), every stored id
is below the autoincrement counter, and the stored ids strictly increase
in list (key) order. -/
def StoreWF {α : Type} (s : QueueStore α) : Prop :=
  (∀ r ∈ s.records, r.synced = false) ∧
  (∀ r ∈ s.records, r.id < s.nextId) ∧
  List.Sorted (fun x y => x < y) (s.records.map (fun r => r.id))

/-- A concrete operation trace: two enqueues then a delete-mode
settlement of the first assigned id. -/
def ops0 : List (DbOp Nat) :=
  [DbOp.enqueue 7 100, DbOp.enqueue 8 101, DbOp.settleDelete 1]

/-! ## Service worker: stale-while-revalidate for static assets (sw.js) -/

/-- An HTTP response as the cache stores it: status code and body. -/
structure SWResponse where
  status : Nat
  body : String
deriving DecidableEq, Repr

/-- The outcome of the network refresh attempted by the fetch handler. -/
inductive NetAttempt where
  | ok (r : SWResponse)
  | error
deriving DecidableEq, Repr

/-- What `event.respondWith` resolves to: a response, or a failed read
(the promise resolved to `undefined`, which the browser turns into a
network error for the request). -/
inductive FetchOutcome where
  | served (r : SWResponse)
  | failed
deriving DecidableEq, Repr

/-- The static-asset branch of the `fetch` listener:
`caches.match(request)` then `return cachedResponse || fetchPromise`,
where `fetchPromise` resolves to the network response on success and to
`cachedResponse` on error. -/
def handleStaticFetch (cached : Option SWResponse) (net : NetAttempt) : FetchOutcome :=
  match cached with
  | some r => FetchOutcome.served r
  | none =>
    match net with
    | NetAttempt.ok r => FetchOutcome.served r
    | NetAttempt.error => FetchOutcome.failed

/-- The cache entry for the request after the handler's concurrent
refresh: `cache.put` runs only when the network response arrived with
`status === 200`; otherwise the entry is untouched. -/
def cacheAfterStaticFetch (cached : Option SWResponse) (net : NetAttempt) :
    Option SWResponse :=
  match net with
  | NetAttempt.ok r => if r.status = 200 then some r else cached
  | NetAttempt.error => cached

/-! ## Server: jobs table and /api/jobs endpoints (server/server.js) -/

/-- A row of the `jobs` table. -/
structure Job where
  id : Nat
  title : String
  company : String
  location : String
  jobType : String
  salary : String
  description : String
  status : String
deriving DecidableEq, Repr

/-- The server database: the `jobs` rows in insertion (ascending rowid)
order, plus the next `AUTOINCREMENT` rowid. -/
structure ServerDb where
  jobs : List Job
  nextRowId : Nat
deriving DecidableEq, Repr

/-- A JSON body field is present (truthy) when it exists and is not the
empty string — the `if (!title || ...)` check. -/
def present : Option String → Bool
  | some s => !decide (s = "")
  | none => false

/-- `x || ''` on an optional string field. -/
def orEmptyStr : Option String → String
  | some s => s
  | none => ""

/-- The response of `POST /api/jobs`. -/
inductive PostJobResponse where
  | badRequest
  | created (id : Nat)
deriving DecidableEq, Repr

/-- `POST /api/jobs`: reject with 400 when `title`, `company`, `location`
or `type` is missing; otherwise `INSERT INTO jobs (..., status) VALUES
(..., 'pending')` with `salary || ''` and `description || ''`, answering
201 with the new rowid. -/
def postJob (db : ServerDb) (title company location jobType salary description :
    Option String) : ServerDb × PostJobResponse :=
  if present title && present company && present location && present jobType then
    (ServerDb.mk
      (db.jobs ++ [Job.mk db.nextRowId (orEmptyStr title) (orEmptyStr company)
        (orEmptyStr location) (orEmptyStr jobType) (orEmptyStr salary)
        (orEmptyStr description) "pending"])
      (db.nextRowId + 1),
     PostJobResponse.created db.nextRowId)
  else (db, PostJobResponse.badRequest)

/-- The comparator of `ORDER BY id DESC`. -/
def jobDescOrder (a b : Job) : Bool := decide (b.id ≤ a.id)

/-- `GET /api/jobs`: `SELECT * FROM jobs WHERE status = 'approved' ORDER
BY id DESC`. -/
def getJobs (db : ServerDb) : List Job :=
  (db.jobs.filter (fun j => decide (j.status = "approved"))).mergeSort jobDescOrder

/-! ## Concrete fixtures used by witnesses and counterexamples -/

/-- An online environment on a platform with no battery or connection API
(both gate signals default to false). -/
def envOn : SyncEnv := SyncEnv.mk true none none

/-- An online environment with battery at 0.10 (below the 0.15 threshold)
and data saver off. -/
def envLow : SyncEnv := SyncEnv.mk true (some 10) (some false)

/-- A network that accepts every submission with 201. -/
def netOkAll : PendingRecord Nat → NetResult := fun _ => NetResult.ok 201

/-- A network where every request hits a transport error. -/
def netErrAll : PendingRecord Nat → NetResult := fun _ => NetResult.transportError

/-- A network that rejects every submission with status 400. -/
def net400All : PendingRecord Nat → NetResult := fun _ => NetResult.ok 400

/-- A pending application record. -/
def appRec1 : PendingRecord Nat := PendingRecord.mk 1 7 100 false

/-- A second pending application record, enqueued after `appRec1`. -/
def appRec2 : PendingRecord Nat := PendingRecord.mk 2 8 101 false

/-- A queue holding the single pending record `appRec1`. -/
def appStore1 : QueueStore Nat := QueueStore.mk [appRec1] 2

/-- A queue holding `appRec1` then `appRec2`. -/
def appStore2 : QueueStore Nat := QueueStore.mk [appRec1, appRec2] 3

/-- A cached static-asset response. -/
def respA : SWResponse := SWResponse.mk 200 "body-a"

/-- A server database holding one approved job. -/
def serverDb1 : ServerDb :=
  ServerDb.mk [Job.mk 1 "Agri-Tech Field Officer" "Siaya Farmers Coop" "Siaya County"
    "rural" "KES 25,000" "Help smallholder farmers." "approved"] 2

/-! ## Claim theorems -/

/-- C7: calling `settle(queue, id, delete)` (`markAsSynced`) twice with
the same id leaves the store exactly as one call does — the second call
is a no-op with no further side effect. -/
theorem settle_delete_idempotent {α : Type} (s : QueueStore α) (id : Nat) :
    markAsSynced (markAsSynced s id) id = markAsSynced s id := by
  simp [markAsSynced, List.filter_filter]

/-- C9: `getSetting(key)` resolves to `null` (a definite value, not an
error) whenever no settings record is stored under that key, for every
state of the settings collection. -/
theorem getSetting_missing_null (settings : List SettingRecord) (key : String)
    (h : ∀ r ∈ settings, r.key ≠ key) :
    getSetting settings key = GetSettingResult.null := by
  unfold getSetting
  have hfind : settings.find? (fun r => decide (r.key = key)) = none := by
    rw [List.find?_eq_none]
    intro r hr
    simp [h r hr]
  rw [hfind]

/-- Witness for C9 at a concrete input: the default settings hold no
record under the key `theme`, and `getSetting` answers `null` there. -/
theorem getSetting_missing_null_witness :
    getSetting defaultSettings "theme" = GetSettingResult.null :=
  getSetting_missing_null defaultSettings "theme" (by decide)

/-- C8: for a static-asset GET, a present cache entry is served as-is
regardless of what the concurrent network refresh does; the cache entry
changes only when the refresh returns status 200 (and then becomes that
response); with no cache entry and a failing network the read fails. -/
theorem static_asset_swr (cached : Option SWResponse) (net : NetAttempt) :
    (∀ r, cached = some r → handleStaticFetch cached net = FetchOutcome.served r)
    ∧ (cacheAfterStaticFetch cached net ≠ cached →
        ∃ r, net = NetAttempt.ok r ∧ r.status = 200 ∧
          cacheAfterStaticFetch cached net = some r)
    ∧ (cached = none → net = NetAttempt.error →
        handleStaticFetch cached net = FetchOutcome.failed) := by
  refine ⟨?_, ?_, ?_⟩
  · intro r hr
    subst hr
    rfl
  · intro hne
    cases net with
    | ok r =>
      by_cases h200 : r.status = 200
      · exact ⟨r, rfl, h200, by simp [cacheAfterStaticFetch, h200]⟩
      · exact absurd (by simp [cacheAfterStaticFetch, h200]) hne
    | error => exact absurd rfl hne
  · intro hc hn
    subst hc
    subst hn
    rfl

/-- Witness for C8 at a concrete input: with `respA` cached and an
erroring network, the read serves the cached body unmodified. -/
theorem static_asset_swr_witness :
    handleStaticFetch (some respA) NetAttempt.error = FetchOutcome.served respA :=
  (static_asset_swr (some respA) NetAttempt.error).1 respA rfl

/-- C6: both settlement modes exist on the local store: delete-mode
settlement (`markAsSynced`, used for the application queue) removes the
record with the settled id, while flag-mode settlement
(`markJobSubmissionSynced`, used for the job-submission queue) retains
the record and sets `synced = true`; records with other ids are left in
place by both. -/
theorem settlement_modes {α : Type} (s : QueueStore α) (id : Nat) (r : PendingRecord α)
    (hr : r ∈ s.records) (hid : r.id = id) :
    (∀ q ∈ (markAsSynced s id).records, q.id ≠ id)
    ∧ PendingRecord.mk r.id r.payload r.timestamp true ∈
        (markJobSubmissionSynced s id).records
    ∧ (markJobSubmissionSynced s id).records.length = s.records.length
    ∧ ∀ q ∈ s.records, q.id ≠ id →
        q ∈ (markAsSynced s id).records ∧ q ∈ (markJobSubmissionSynced s id).records := by
  refine ⟨?_, ?_, ?_, ?_⟩
  · intro q hq
    simp only [markAsSynced, List.mem_filter, decide_not, Bool.not_eq_true',
      decide_eq_false_iff_not] at hq
    exact hq.2
  · have hm := List.mem_map_of_mem
      (fun x : PendingRecord α =>
        if x.id = id then PendingRecord.mk x.id x.payload x.timestamp true else x) hr
    simpa [markJobSubmissionSynced, hid] using hm
  · simp [markJobSubmissionSynced]
  · intro q hq hne
    constructor
    · simp [markAsSynced, List.mem_filter, hq, hne]
    · have hm := List.mem_map_of_mem
        (fun x : PendingRecord α =>
          if x.id = id then PendingRecord.mk x.id x.payload x.timestamp true else x) hq
      simpa [markJobSubmissionSynced, hne] using hm

/-- Witness for C6 at a concrete input: settling id 1 in a one-record
store by deletion removes it, and by flagging retains it with
`synced = true`. -/
theorem settlement_modes_witness :
    (∀ q ∈ (markAsSynced appStore1 1).records, q.id ≠ 1)
    ∧ PendingRecord.mk 1 7 100 true ∈ (markJobSubmissionSynced appStore1 1).records
    ∧ (markJobSubmissionSynced appStore1 1).records.length = appStore1.records.length
    ∧ ∀ q ∈ appStore1.records, q.id ≠ 1 →
        q ∈ (markAsSynced appStore1 1).records ∧
        q ∈ (markJobSubmissionSynced appStore1 1).records :=
  settlement_modes appStore1 1 appRec1 (by decide) rfl

/-- Reduction helper: a drain pass whose first pending item fails submits
exactly that item, leaves the store untouched, and schedules per
`scheduleRetry`. -/
theorem drainLoop_head_fail {α : Type} (settle : QueueStore α → Nat → QueueStore α)
    (net : PendingRecord α → NetResult) (rc : Nat) (r : PendingRecord α)
    (rest : List (PendingRecord α)) (s : QueueStore α)
    (hfail : netFails (net r) = true) :
    drainLoop settle net rc (r :: rest) s = (s, [r], scheduleRetry rc) := by
  simp [drainLoop, hfail]

/-- C1 (amended): the resource gate exists only in `trySyncApplications`,
and it tests the live battery level and data-saver signal (the stored
`batteryAware` setting is not consulted): when online and either signal
is active, the drain submits nothing, leaves the store untouched, and
(when items are pending) returns the deferred outcome.
`trySyncJobSubmissions` performs no such gate. -/
theorem resource_gate_applications_deferred {α : Type} (env : SyncEnv)
    (net : PendingRecord α → NetResult) (s : QueueStore α) (rc : Nat)
    (hon : env.onLine = true)
    (hgate : (isBatteryLow env || isDataSaver env) = true) :
    (trySyncApplications env net s rc).submitted = []
    ∧ (trySyncApplications env net s rc).store = s
    ∧ (getPendingApplications s ≠ [] →
        (trySyncApplications env net s rc).outcome = SyncOutcome.deferred) := by
  by_cases hemp : (getPendingApplications s).isEmpty
  · refine ⟨?_, ?_, ?_⟩
    · simp [trySyncApplications, hon, hemp]
    · simp [trySyncApplications, hon, hemp]
    · intro hne
      exact absurd (List.isEmpty_iff.mp hemp) hne
  · refine ⟨?_, ?_, ?_⟩
    · simp [trySyncApplications, hon, hemp, hgate]
    · simp [trySyncApplications, hon, hemp, hgate]
    · intro _
      simp [trySyncApplications, hon, hemp, hgate]

/-- Witness for the amended C1 at a concrete input: online, battery at
0.10, one pending application — nothing is submitted, the store is
unchanged, and the outcome is deferred. -/
theorem resource_gate_applications_deferred_witness :
    (trySyncApplications envLow netOkAll appStore1 0).submitted = []
    ∧ (trySyncApplications envLow netOkAll appStore1 0).store = appStore1
    ∧ (getPendingApplications appStore1 ≠ [] →
        (trySyncApplications envLow netOkAll appStore1 0).outcome = SyncOutcome.deferred) :=
  resource_gate_applications_deferred envLow netOkAll appStore1 0 rfl rfl

/-- Counterexample to C1 as stated: with the stored `batteryAware`
setting at its default `true` and the battery low (0.10 < 0.15),
`trySyncJobSubmissions` still submits the pending job to the remote
endpoint, completes the pass (settling the item) and does not defer —
the job-submission drain has no resource gate at all. -/
theorem resource_gate_jobs_counterexample :
    getSetting defaultSettings "batteryAware" =
      GetSettingResult.value (SettingValue.bool true)
    ∧ isBatteryLow envLow = true
    ∧ (trySyncJobSubmissions envLow netOkAll appStore1 0).submitted =
        [PendingRecord.mk 1 7 100 false]
    ∧ (trySyncJobSubmissions envLow netOkAll appStore1 0).outcome = SyncOutcome.completed
    ∧ (trySyncJobSubmissions envLow netOkAll appStore1 0).store ≠ appStore1 := by
  refine ⟨by decide, rfl, by decide, by decide, by decide⟩

/-- C3 (amended): on a failed submission at retry count `rc` the engine
schedules a retry (re-invoking the drain with `rc + 1`) after exactly
`2^rc * 1000` ms, but only while `rc < 3`: the schedule is 1s, 2s, 4s
for attempts 0, 1, 2, and a failure at attempt 3 — the fourth
consecutive failure — schedules no further automatic retry (connectivity
edges and manual triggers call the drain with attempt 0 again). -/
theorem backoff_schedule_amended {α : Type} (env : SyncEnv)
    (net : PendingRecord α → NetResult) (s : QueueStore α) (rc : Nat)
    (r : PendingRecord α) (rest : List (PendingRecord α))
    (hon : env.onLine = true)
    (hgate : (isBatteryLow env || isDataSaver env) = false)
    (hpend : getPendingApplications s = r :: rest)
    (hfail : netFails (net r) = true) :
    (trySyncApplications env net s rc).retryScheduled =
      if rc < 3 then some (RetryTimer.mk (2 ^ rc * 1000) (rc + 1)) else none := by
  have hemp : (getPendingApplications s).isEmpty = false := by
    rw [hpend]
    rfl
  have hred : trySyncApplications env net s rc =
      DrainResult.mk (drainLoop markAsSynced net rc (getPendingApplications s) s).1
        (drainLoop markAsSynced net rc (getPendingApplications s) s).2.1
        (drainLoop markAsSynced net rc (getPendingApplications s) s).2.2
        SyncOutcome.completed := by
    simp [trySyncApplications, hon, hemp, hgate]
  rw [hred, hpend, drainLoop_head_fail markAsSynced net rc r rest s hfail]
  rfl

/-- Witness for the amended C3 at a concrete input: online, one pending
application, transport error at attempt 0 — a retry is scheduled after
`2^0 * 1000 = 1000` ms carrying attempt 1. -/
theorem backoff_schedule_amended_witness :
    (trySyncApplications envOn netErrAll appStore1 0).retryScheduled =
      if 0 < 3 then some (RetryTimer.mk (2 ^ 0 * 1000) (0 + 1)) else none :=
  backoff_schedule_amended envOn netErrAll appStore1 0 appRec1 [] rfl rfl rfl rfl

/-- Counterexample to C3 as stated: the failure at attempt 3 (the fourth
consecutive failure on the same item) schedules no retry at all — there
is no 8s retry; the attempt-2 failure's 4s retry is the last one. -/
theorem backoff_no_fourth_retry_counterexample :
    (trySyncApplications envOn netErrAll appStore1 3).retryScheduled = none
    ∧ (trySyncApplications envOn netErrAll appStore1 2).retryScheduled =
        some (RetryTimer.mk 4000 3) := by
  refine ⟨by decide, by decide⟩

/-- C4 (amended): a 4xx response to a queue submission is treated exactly
like a transient failure: the pass stops, the item is left pending (the
store is unchanged), and an automatic retry is scheduled per
`scheduleRetry` — the engine does not exempt 4xx from retrying. -/
theorem http4xx_auto_retried {α : Type} (env : SyncEnv)
    (net : PendingRecord α → NetResult) (s : QueueStore α) (rc : Nat)
    (r : PendingRecord α) (rest : List (PendingRecord α)) (st : Nat)
    (hon : env.onLine = true)
    (hgate : (isBatteryLow env || isDataSaver env) = false)
    (hpend : getPendingApplications s = r :: rest)
    (hst : net r = NetResult.ok st) (h4 : 400 ≤ st) (h5 : st < 500) :
    (trySyncApplications env net s rc).retryScheduled = scheduleRetry rc
    ∧ (trySyncApplications env net s rc).store = s
    ∧ (trySyncApplications env net s rc).submitted = [r] := by
  have hfail : netFails (net r) = true := by
    rw [hst]
    simp only [netFails, respOk, Bool.not_eq_true', Bool.and_eq_false_iff,
      decide_eq_false_iff_not, not_le, not_lt]
    right
    omega
  have hemp : (getPendingApplications s).isEmpty = false := by
    rw [hpend]
    rfl
  have hred : trySyncApplications env net s rc =
      DrainResult.mk (drainLoop markAsSynced net rc (getPendingApplications s) s).1
        (drainLoop markAsSynced net rc (getPendingApplications s) s).2.1
        (drainLoop markAsSynced net rc (getPendingApplications s) s).2.2
        SyncOutcome.completed := by
    simp [trySyncApplications, hon, hemp, hgate]
  rw [hred, hpend, drainLoop_head_fail markAsSynced net rc r rest s hfail]
  exact ⟨rfl, rfl, rfl⟩

/-- Witness for the amended C4 at a concrete input: a 400 response at
attempt 0 leaves the item pending and schedules the 1s retry. -/
theorem http4xx_auto_retried_witness :
    (trySyncApplications envOn net400All appStore1 0).retryScheduled = scheduleRetry 0
    ∧ (trySyncApplications envOn net400All appStore1 0).store = appStore1
    ∧ (trySyncApplications envOn net400All appStore1 0).submitted = [appRec1] :=
  http4xx_auto_retried envOn net400All appStore1 0 appRec1 [] 400 rfl rfl rfl rfl
    (by decide) (by decide)

/-- Counterexample to C4 as stated: a 400-status answer to a queue
submission does trigger an automatic retry — the engine schedules the 1s
backoff timer instead of abandoning the item as `RemoteRejected`. -/
theorem http4xx_retried_counterexample :
    (trySyncApplications envOn net400All appStore1 0).retryScheduled =
      some (RetryTimer.mk 1000 1) := by
  decide

/-- A drain pass over a list whose prefix all succeeds and whose next
item fails settles exactly the prefix, submits the prefix plus the
failing item, and schedules per `scheduleRetry`. -/
theorem drainLoop_first_fail {α : Type} (settle : QueueStore α → Nat → QueueStore α)
    (net : PendingRecord α → NetResult) (rc : Nat) :
    ∀ (l1 : List (PendingRecord α)) (a : PendingRecord α)
      (l2 : List (PendingRecord α)) (s : QueueStore α),
    (∀ x ∈ l1, netFails (net x) = false) → netFails (net a) = true →
    drainLoop settle net rc (l1 ++ a :: l2) s =
      (l1.foldl (fun t x => settle t x.id) s, l1 ++ [a], scheduleRetry rc)
  | [], a, l2, s, _, hfail => by
    simp [drainLoop, hfail]
  | x :: l1, a, l2, s, hok, hfail => by
    have hx : netFails (net x) = false := hok x (List.mem_cons_self x l1)
    have ih := drainLoop_first_fail settle net rc l1 a l2 (settle s x.id)
      (fun y hy => hok y (List.mem_cons_of_mem x hy)) hfail
    simp [drainLoop, hx, ih]

/-- Any list holding an element satisfying `p` splits at the first such
element. -/
theorem exists_first_sat {β : Type} (p : β → Bool) :
    ∀ (l : List β), (∃ a ∈ l, p a = true) →
    ∃ l1 f l2, l = l1 ++ f :: l2 ∧ (∀ x ∈ l1, p x = false) ∧ p f = true
  | [], h => by simp at h
  | x :: xs, h => by
    by_cases hx : p x = true
    · exact ⟨[], x, xs, rfl, by simp, hx⟩
    · have hxs : ∃ a ∈ xs, p a = true := by
        obtain ⟨a, ha, hpa⟩ := h
        rcases List.mem_cons.mp ha with h1 | h2
        · subst h1
          exact absurd hpa hx
        · exact ⟨a, h2, hpa⟩
      obtain ⟨l1, f, l2, heq, h1, h2⟩ := exists_first_sat p xs hxs
      refine ⟨x :: l1, f, l2, by rw [heq]; rfl, ?_, h2⟩
      intro y hy
      rcases List.mem_cons.mp hy with h1' | h2'
      · subst h1'
        simpa using hx
      · exact h1 y h2'

/-- In a duplicate-free list, the split around a given element is
unique. -/
theorem nodup_middle_split_unique {β : Type} (a : β) :
    ∀ (l1 l2 p1 p2 : List β), (l1 ++ a :: l2).Nodup →
    l1 ++ a :: l2 = p1 ++ a :: p2 → l1 = p1 ∧ l2 = p2
  | [], l2, [], p2, _, heq => by
    simp only [List.nil_append] at heq
    exact ⟨rfl, List.cons_injective heq⟩
  | [], l2, x :: p1, p2, hnd, heq => by
    exfalso
    simp only [List.nil_append, List.cons_append, List.cons.injEq] at heq
    obtain ⟨hax, hl2⟩ := heq
    have hmem : a ∈ l2 := by
      rw [hl2]
      exact List.mem_append_right p1 (List.mem_cons_self a p2)
    have hnd' : (a :: l2).Nodup := hnd
    exact (List.nodup_cons.mp hnd').1 hmem
  | x :: l1, l2, [], p2, hnd, heq => by
    exfalso
    simp only [List.nil_append, List.cons_append, List.cons.injEq] at heq
    obtain ⟨hxa, hp2⟩ := heq
    have hnd' : (x :: (l1 ++ a :: l2)).Nodup := hnd
    apply (List.nodup_cons.mp hnd').1
    rw [hxa]
    exact List.mem_append_right l1 (List.mem_cons_self a l2)
  | x :: l1, l2, y :: p1, p2, hnd, heq => by
    simp only [List.cons_append, List.cons.injEq] at heq
    obtain ⟨hxy, htail⟩ := heq
    have hndx : (x :: (l1 ++ a :: l2)).Nodup := hnd
    have hnd' : (l1 ++ a :: l2).Nodup := (List.nodup_cons.mp hndx).2
    obtain ⟨h1, h2⟩ := nodup_middle_split_unique a l1 l2 p1 p2 hnd' htail
    exact ⟨by rw [hxy, h1], h2⟩

/-- A record whose id differs from every settled id survives a sequence
of delete-mode settlements. -/
theorem mem_records_foldl_settleDelete {α : Type} :
    ∀ (l : List (PendingRecord α)) (s : QueueStore α) (b : PendingRecord α),
    b ∈ s.records → (∀ x ∈ l, b.id ≠ x.id) →
    b ∈ (l.foldl (fun t x => markAsSynced t x.id) s).records
  | [], _, _, hb, _ => hb
  | x :: l, s, b, hb, hne => by
    apply mem_records_foldl_settleDelete l (markAsSynced s x.id) b
    · have hnx := hne x (List.mem_cons_self x l)
      simp [markAsSynced, List.mem_filter, hb, hnx]
    · intro y hy
      exact hne y (List.mem_cons_of_mem x hy)

/-- When a drain pass submitted anything at all, every early-return
branch of `trySyncApplications` is excluded and the result is the drain
of the pending list. -/
theorem trySyncApplications_eq_drain {α : Type} (env : SyncEnv)
    (net : PendingRecord α → NetResult) (s : QueueStore α) (rc : Nat)
    (hsub : (trySyncApplications env net s rc).submitted ≠ []) :
    trySyncApplications env net s rc =
      DrainResult.mk (drainLoop markAsSynced net rc (getPendingApplications s) s).1
        (drainLoop markAsSynced net rc (getPendingApplications s) s).2.1
        (drainLoop markAsSynced net rc (getPendingApplications s) s).2.2
        SyncOutcome.completed := by
  by_cases hon : env.onLine = true
  · by_cases hemp : (getPendingApplications s).isEmpty
    · exact absurd (by simp [trySyncApplications, hon, hemp]) hsub
    · by_cases hgate : (isBatteryLow env || isDataSaver env) = true
      · exact absurd (by simp [trySyncApplications, hon, hemp, hgate]) hsub
      · have hgate' : (isBatteryLow env || isDataSaver env) = false := by
          simpa using hgate
        simp [trySyncApplications, hon, hemp, hgate']
  · have hon' : env.onLine = false := by simpa using hon
    exact absurd (by simp [trySyncApplications, hon']) hsub

/-- C2: within one queue drain, if item `a` was submitted and its
submission failed, then any item `b` enqueued after it is not submitted
in this pass and remains pending in the store afterwards — FIFO order is
preserved for the next attempt. -/
theorem fifo_failure_stops_pass {α : Type} (env : SyncEnv)
    (net : PendingRecord α → NetResult) (s : QueueStore α) (rc : Nat)
    (a b : PendingRecord α) (l1 l2 : List (PendingRecord α))
    (hnodup : (s.records.map (fun r => r.id)).Nodup)
    (hsplit : getPendingApplications s = l1 ++ a :: l2)
    (hb : b ∈ l2)
    (hsub : a ∈ (trySyncApplications env net s rc).submitted)
    (hfail : netFails (net a) = true) :
    b ∉ (trySyncApplications env net s rc).submitted
    ∧ b ∈ getPendingApplications (trySyncApplications env net s rc).store := by
  have hsubne : (trySyncApplications env net s rc).submitted ≠ [] := by
    intro h
    rw [h] at hsub
    exact (List.not_mem_nil a) hsub
  have hred := trySyncApplications_eq_drain env net s rc hsubne
  have hpendids : ((getPendingApplications s).map (fun r => r.id)).Nodup :=
    List.Nodup.sublist (List.Sublist.map _ (List.filter_sublist s.records)) hnodup
  have hpendnd : (getPendingApplications s).Nodup := List.Nodup.of_map _ hpendids
  have hamem : a ∈ getPendingApplications s := by
    rw [hsplit]
    exact List.mem_append_right l1 (List.mem_cons_self a l2)
  obtain ⟨p1, f, p2, hpeq, hp1ok, hpf⟩ :=
    exists_first_sat (fun x => netFails (net x)) (getPendingApplications s)
      ⟨a, hamem, hfail⟩
  have hD : drainLoop markAsSynced net rc (getPendingApplications s) s =
      (p1.foldl (fun t x => markAsSynced t x.id) s, p1 ++ [f], scheduleRetry rc) := by
    rw [hpeq]
    exact drainLoop_first_fail markAsSynced net rc p1 f p2 s hp1ok hpf
  have hsubEq : (trySyncApplications env net s rc).submitted = p1 ++ [f] := by
    rw [hred]
    show (drainLoop markAsSynced net rc (getPendingApplications s) s).2.1 = p1 ++ [f]
    rw [hD]
  have hstoreEq : (trySyncApplications env net s rc).store =
      p1.foldl (fun t x => markAsSynced t x.id) s := by
    rw [hred]
    show (drainLoop markAsSynced net rc (getPendingApplications s) s).1 = _
    rw [hD]
  have haf : a = f := by
    rw [hsubEq] at hsub
    rcases List.mem_append.mp hsub with h1 | h2
    · have hfa := hp1ok a h1
      rw [hfa] at hfail
      exact absurd hfail (by simp)
    · simpa using h2
  subst haf
  have hkey : l1 = p1 ∧ l2 = p2 := by
    apply nodup_middle_split_unique a l1 l2 p1 p2
    · rw [← hsplit]
      exact hpendnd
    · rw [← hsplit, ← hpeq]
  obtain ⟨hk1, hk2⟩ := hkey
  subst hk1
  subst hk2
  have hnd2 : (l1 ++ a :: l2).Nodup := hsplit ▸ hpendnd
  obtain ⟨hndl1, hndc, hdisj⟩ := List.nodup_append.mp hnd2
  constructor
  · rw [hsubEq]
    intro hmem
    rcases List.mem_append.mp hmem with h1 | h2
    · exact (hdisj h1) (List.mem_cons_of_mem a hb)
    · have hba : b = a := by simpa using h2
      subst hba
      exact (List.nodup_cons.mp hndc).1 hb
  · have hbpend : b ∈ getPendingApplications s := by
      rw [hsplit]
      exact List.mem_append_right l1 (List.mem_cons_of_mem a hb)
    have hbrec := List.mem_filter.mp hbpend
    have hids : ∀ x ∈ l1, b.id ≠ x.id := by
      intro x hx hEq
      have hmapnd : ((l1 ++ a :: l2).map (fun r => r.id)).Nodup := hsplit ▸ hpendids
      rw [List.map_append] at hmapnd
      obtain ⟨_, _, hdisj'⟩ := List.nodup_append.mp hmapnd
      apply hdisj' (List.mem_map_of_mem _ hx)
      rw [← hEq]
      exact List.mem_map_of_mem _ (List.mem_cons_of_mem a hb)
    rw [hstoreEq]
    apply List.mem_filter.mpr
    exact ⟨mem_records_foldl_settleDelete l1 s b hbrec.1 hids, hbrec.2⟩

/-- Witness for C2 at a concrete input: two pending applications, the
first one's submission hits a transport error — the second is not
submitted in the pass and is still pending afterwards. -/
theorem fifo_failure_stops_pass_witness :
    appRec2 ∉ (trySyncApplications envOn netErrAll appStore2 0).submitted
    ∧ appRec2 ∈
        getPendingApplications (trySyncApplications envOn netErrAll appStore2 0).store :=
  fifo_failure_stops_pass envOn netErrAll appStore2 0 appRec1 appRec2 [] [appRec2]
    (by decide) (by decide) (by decide) (by decide) rfl

/-- A freshly created store is well-formed. -/
theorem storeWF_empty {α : Type} : StoreWF (emptyStore (α := α)) := by
  refine ⟨?_, ?_, ?_⟩ <;> simp [StoreWF, emptyStore]

/-- Each queue operation preserves store well-formedness. -/
theorem storeWF_applyOp {α : Type} (s : QueueStore α) (op : DbOp α)
    (h : StoreWF s) : StoreWF (applyOp s op) := by
  obtain ⟨h1, h2, h3⟩ := h
  cases op with
  | enqueue p now =>
    refine ⟨?_, ?_, ?_⟩
    · intro r hr
      simp only [applyOp, queueApplication, List.mem_append, List.mem_singleton] at hr
      rcases hr with hr | hr
      · exact h1 r hr
      · rw [hr]
    · intro r hr
      simp only [applyOp, queueApplication, List.mem_append, List.mem_singleton] at hr
      rcases hr with hr | hr
      · exact Nat.lt_succ_of_lt (h2 r hr)
      · rw [hr]
        exact Nat.lt_succ_self s.nextId
    · show List.Sorted (fun x y => x < y)
        ((s.records ++ [PendingRecord.mk s.nextId p now false]).map (fun r => r.id))
      rw [List.map_append]
      apply List.pairwise_append.mpr
      refine ⟨h3, by simp, ?_⟩
      intro x hx y hy
      simp only [List.map_cons, List.map_nil, List.mem_singleton] at hy
      obtain ⟨r, hr, hrid⟩ := List.mem_map.mp hx
      rw [hy, ← hrid]
      exact h2 r hr
  | settleDelete id =>
    refine ⟨?_, ?_, ?_⟩
    · intro r hr
      exact h1 r (List.mem_of_mem_filter hr)
    · intro r hr
      exact h2 r (List.mem_of_mem_filter hr)
    · exact List.Pairwise.sublist
        (List.Sublist.map _ (List.filter_sublist s.records)) h3

/-- A trace of queue operations preserves store well-formedness. -/
theorem storeWF_applyOps {α : Type} :
    ∀ (ops : List (DbOp α)) (s : QueueStore α), StoreWF s → StoreWF (applyOps s ops)
  | [], _, h => h
  | op :: ops, s, h => storeWF_applyOps ops (applyOp s op) (storeWF_applyOp s op h)

/-- Deleting a present key from a duplicate-free record list removes
exactly one record. -/
theorem filter_remove_one {α : Type} (id : Nat) :
    ∀ (l : List (PendingRecord α)),
    (l.map (fun r => r.id)).Nodup → (∃ r ∈ l, r.id = id) →
    (l.filter (fun r => decide ¬ (r.id = id))).length + 1 = l.length
  | [], _, hex => by simp at hex
  | x :: xs, hnd, hex => by
    rw [List.map_cons, List.nodup_cons] at hnd
    by_cases hx : x.id = id
    · have hxs : ∀ r ∈ xs, ¬ (r.id = id) := by
        intro r hr hrid
        apply hnd.1
        rw [hx, ← hrid]
        exact List.mem_map_of_mem (fun r => r.id) hr
      have hkeep : xs.filter (fun r => decide ¬ (r.id = id)) = xs :=
        List.filter_eq_self.mpr (fun r hr => by simpa using hxs r hr)
      have hfilter : (x :: xs).filter (fun r => decide ¬ (r.id = id)) =
          xs.filter (fun r => decide ¬ (r.id = id)) := by
        rw [List.filter_cons]
        simp [hx]
      rw [hfilter, hkeep, List.length_cons]
    · have hex' : ∃ r ∈ xs, r.id = id := by
        obtain ⟨r, hr, hrid⟩ := hex
        rcases List.mem_cons.mp hr with h1 | h2
        · subst h1
          exact absurd hrid hx
        · exact ⟨r, h2, hrid⟩
      have ih := filter_remove_one id xs hnd.2 hex'
      have hfilter : (x :: xs).filter (fun r => decide ¬ (r.id = id)) =
          x :: xs.filter (fun r => decide ¬ (r.id = id)) := by
        rw [List.filter_cons]
        simp [hx]
      rw [hfilter]
      simp only [List.length_cons]
      omega

/-- Over a valid trace the record count changes by exactly the number of
enqueues minus the number of settled items. -/
theorem applyOps_length {α : Type} :
    ∀ (ops : List (DbOp α)) (s : QueueStore α), StoreWF s → validOps s ops = true →
    (applyOps s ops).records.length + countSettles ops =
      s.records.length + countEnqueues ops
  | [], s, _, _ => by
    simp [applyOps, countSettles, countEnqueues]
  | DbOp.enqueue p now :: ops, s, hwf, hv => by
    have hv' : validOps (applyOp s (DbOp.enqueue p now)) ops = true := by
      simpa [validOps] using hv
    have ih := applyOps_length ops (applyOp s (DbOp.enqueue p now))
      (storeWF_applyOp s _ hwf) hv'
    have hstep : applyOps s (DbOp.enqueue p now :: ops) =
        applyOps (applyOp s (DbOp.enqueue p now)) ops := rfl
    have hlen : (applyOp s (DbOp.enqueue p now)).records.length =
        s.records.length + 1 := by
      simp [applyOp, queueApplication]
    rw [hstep]
    simp [countEnqueues, countSettles, List.countP_cons, isEnqueueOp] at ih ⊢
    omega
  | DbOp.settleDelete id :: ops, s, hwf, hv => by
    have hconj : s.records.any (fun r => decide (r.id = id)) = true ∧
        validOps (applyOp s (DbOp.settleDelete id)) ops = true := by
      simpa [validOps] using hv
    have hv' := hconj.2
    have ih := applyOps_length ops (applyOp s (DbOp.settleDelete id))
      (storeWF_applyOp s _ hwf) hv'
    have hex : ∃ r ∈ s.records, r.id = id := by
      obtain ⟨r, hr, hrid⟩ := List.any_eq_true.mp hconj.1
      exact ⟨r, hr, of_decide_eq_true hrid⟩
    have hnd : (s.records.map (fun r => r.id)).Nodup :=
      List.Sorted.nodup hwf.2.2
    have hlen := filter_remove_one id s.records hnd hex
    have hstep : applyOps s (DbOp.settleDelete id :: ops) =
        applyOps (applyOp s (DbOp.settleDelete id)) ops := rfl
    have hrec : (applyOp s (DbOp.settleDelete id)).records.length + 1 =
        s.records.length := hlen
    rw [hstep]
    simp [countEnqueues, countSettles, List.countP_cons, isEnqueueOp] at ih ⊢
    omega

/-- C5: starting from a fresh store, after any valid trace of enqueues
and settlements the pending list is exactly the stored records (every
record enqueued with `synced = false`), in ascending assigned-id
(enqueue) order, and its count equals the number of enqueue calls minus
the number of settled items; each enqueue appends a record carrying the
current autoincrement id, `synced = false` and the given timestamp, and
bumps the autoincrement counter. -/
theorem enqueue_getPending_props {α : Type} (ops : List (DbOp α))
    (h : validOps emptyStore ops = true) :
    List.Sorted (fun x y => x < y)
      ((getPendingApplications (applyOps emptyStore ops)).map (fun r => r.id))
    ∧ getPendingApplications (applyOps emptyStore ops) = (applyOps emptyStore ops).records
    ∧ (getPendingApplications (applyOps emptyStore ops)).length + countSettles ops =
        countEnqueues ops
    ∧ ∀ (p : α) (now : Nat),
        (queueApplication (applyOps emptyStore ops) p now).records =
          (applyOps emptyStore ops).records ++
            [PendingRecord.mk (applyOps emptyStore ops).nextId p now false]
        ∧ (queueApplication (applyOps emptyStore ops) p now).nextId =
            (applyOps emptyStore ops).nextId + 1 := by
  have hwf := storeWF_applyOps ops emptyStore storeWF_empty
  have hpend : getPendingApplications (applyOps emptyStore ops) =
      (applyOps emptyStore ops).records := by
    apply List.filter_eq_self.mpr
    intro r hr
    simp [hwf.1 r hr]
  refine ⟨?_, hpend, ?_, ?_⟩
  · rw [hpend]
    exact hwf.2.2
  · rw [hpend]
    have hlen := applyOps_length ops emptyStore storeWF_empty h
    simpa [emptyStore] using hlen
  · intro p now
    exact ⟨rfl, rfl⟩

/-- Witness for C5 at a concrete input: the trace `ops0` (enqueue 7,
enqueue 8, settle id 1) is valid from the fresh store, and all the
stated properties hold for it. -/
theorem enqueue_getPending_props_witness :
    List.Sorted (fun x y => x < y)
      ((getPendingApplications (applyOps emptyStore ops0)).map (fun r => r.id))
    ∧ getPendingApplications (applyOps emptyStore ops0) = (applyOps emptyStore ops0).records
    ∧ (getPendingApplications (applyOps emptyStore ops0)).length + countSettles ops0 =
        countEnqueues ops0
    ∧ ∀ (p : Nat) (now : Nat),
        (queueApplication (applyOps emptyStore ops0) p now).records =
          (applyOps emptyStore ops0).records ++
            [PendingRecord.mk (applyOps emptyStore ops0).nextId p now false]
        ∧ (queueApplication (applyOps emptyStore ops0) p now).nextId =
            (applyOps emptyStore ops0).nextId + 1 :=
  enqueue_getPending_props ops0 (by decide)

/-- Every row `GET /api/jobs` returns has status `'approved'`. -/
theorem getJobs_all_approved (db : ServerDb) :
    ∀ j ∈ getJobs db, j.status = "approved" := by
  intro j hj
  unfold getJobs at hj
  have hj' : j ∈ db.jobs.filter (fun j => decide (j.status = "approved")) :=
    List.mem_mergeSort.mp hj
  exact of_decide_eq_true (List.mem_filter.mp hj').2

/-- The rows `GET /api/jobs` returns are in descending id order. -/
theorem getJobs_sorted_desc (db : ServerDb) :
    List.Pairwise (fun x y : Job => y.id ≤ x.id) (getJobs db) := by
  have htrans : ∀ (a b c : Job), jobDescOrder a b → jobDescOrder b c → jobDescOrder a c := by
    intro a b c hab hbc
    simp only [jobDescOrder, decide_eq_true_eq] at *
    omega
  have htotal : ∀ (a b : Job), jobDescOrder a b || jobDescOrder b a := by
    intro a b
    simp only [jobDescOrder, Bool.or_eq_true, decide_eq_true_eq]
    omega
  have hp := List.sorted_mergeSort htrans htotal
    (db.jobs.filter (fun j => decide (j.status = "approved")))
  exact List.Pairwise.imp (fun hab => by simpa [jobDescOrder] using hab) hp

/-- C10: a job accepted by `POST /api/jobs` is stored with status
`'pending'` (salary and description defaulting to the empty string when
absent) under the fresh rowid, and `GET /api/jobs` — which lists only
`'approved'` rows in descending id order — returns exactly what it
returned before the insert: the new submission is invisible until
approved. -/
theorem post_pending_not_listed (db : ServerDb)
    (title company location jobType salary description : Option String)
    (hv : (present title && present company && present location && present jobType)
      = true) :
    (postJob db title company location jobType salary description).2 =
      PostJobResponse.created db.nextRowId
    ∧ (∃ j ∈ (postJob db title company location jobType salary description).1.jobs,
        j.id = db.nextRowId ∧ j.status = "pending"
        ∧ j.salary = orEmptyStr salary ∧ j.description = orEmptyStr description)
    ∧ getJobs (postJob db title company location jobType salary description).1 =
        getJobs db
    ∧ (∀ j ∈ getJobs (postJob db title company location jobType salary description).1,
        j.status = "approved")
    ∧ List.Pairwise (fun x y : Job => y.id ≤ x.id)
        (getJobs (postJob db title company location jobType salary description).1) := by
  have hdb : (postJob db title company location jobType salary description).1 =
      ServerDb.mk
        (db.jobs ++ [Job.mk db.nextRowId (orEmptyStr title) (orEmptyStr company)
          (orEmptyStr location) (orEmptyStr jobType) (orEmptyStr salary)
          (orEmptyStr description) "pending"])
        (db.nextRowId + 1) := by
    simp [postJob, hv]
  have hresp : (postJob db title company location jobType salary description).2 =
      PostJobResponse.created db.nextRowId := by
    simp [postJob, hv]
  have hsame : getJobs (postJob db title company location jobType salary description).1 =
      getJobs db := by
    rw [hdb]
    unfold getJobs
    simp [List.filter_append]
  refine ⟨hresp, ?_, hsame, ?_, ?_⟩
  · rw [hdb]
    refine ⟨Job.mk db.nextRowId (orEmptyStr title) (orEmptyStr company)
      (orEmptyStr location) (orEmptyStr jobType) (orEmptyStr salary)
      (orEmptyStr description) "pending", ?_, rfl, rfl, rfl, rfl⟩
    exact List.mem_append_right db.jobs (List.mem_singleton.mpr rfl)
  · exact getJobs_all_approved _
  · exact getJobs_sorted_desc _

/-- Witness for C10 at a concrete input: posting a complete job to a
one-job database answers 201 with rowid 2, stores it pending, and leaves
the `GET /api/jobs` listing unchanged. -/
theorem post_pending_not_listed_witness :
    (postJob serverDb1 (some "Clerk") (some "Co") (some "Nairobi") (some "urban")
      none none).2 = PostJobResponse.created serverDb1.nextRowId
    ∧ (∃ j ∈ (postJob serverDb1 (some "Clerk") (some "Co") (some "Nairobi")
          (some "urban") none none).1.jobs,
        j.id = serverDb1.nextRowId ∧ j.status = "pending"
        ∧ j.salary = orEmptyStr none ∧ j.description = orEmptyStr none)
    ∧ getJobs (postJob serverDb1 (some "Clerk") (some "Co") (some "Nairobi")
        (some "urban") none none).1 = getJobs serverDb1
    ∧ (∀ j ∈ getJobs (postJob serverDb1 (some "Clerk") (some "Co") (some "Nairobi")
        (some "urban") none none).1, j.status = "approved")
    ∧ List.Pairwise (fun x y : Job => y.id ≤ x.id)
        (getJobs (postJob serverDb1 (some "Clerk") (some "Co") (some "Nairobi")
          (some "urban") none none).1) :=
  post_pending_not_listed serverDb1 (some "Clerk") (some "Co") (some "Nairobi")
    (some "urban") none none (by decide)
